import Mathlib

/-!
Verification of the DNA sequence analysis module (dna_sequence.py).

The Python module is shallowly embedded: the sequence data is a list of
characters, the constructor and the operations that can raise are modelled
with Except, and the scanning loops of the module (pattern search, ORF
scan) are modelled as structurally recursive functions on an explicit
iteration bound that equals the number of loop iterations the Python
loops can perform, so that every definition is executable.
-/

/-- Decidable equality for Except results, so that concrete runs of the
fallible operations can be checked by decide. -/
instance {e a : Type} [DecidableEq e] [DecidableEq a] : DecidableEq (Except e a) := by
  intro x y
  cases x <;> cases y
  case error.error u v =>
    exact if h : u = v then .isTrue (by rw [h]) else .isFalse (by simp [h])
  case ok.ok u v =>
    exact if h : u = v then .isTrue (by rw [h]) else .isFalse (by simp [h])
  case error.ok u v => exact .isFalse (by simp)
  case ok.error u v => exact .isFalse (by simp)

namespace DNA

/-- Errors the module can raise: InvalidSequenceError from the constructor,
IndexError from single-position indexing. -/
inductive PyErr where
  | invalidSequence
  | indexError
deriving DecidableEq

/-- DNAValidator._VALID_BASES = the set of the five recognized symbols. -/
def VALID_BASES : List Char := ['A', 'T', 'G', 'C', 'N']

/-- DNAValidator.is_valid: non-empty and every character (upper-cased,
as set(sequence.upper()) does) belongs to the valid bases. -/
def isValid (s : List Char) : Bool :=
  !s.isEmpty && s.all (fun c => VALID_BASES.contains c.toUpper)

/-- Python str.strip(): remove leading and trailing whitespace. -/
def pyStrip (s : List Char) : List Char :=
  ((s.dropWhile Char.isWhitespace).reverse.dropWhile Char.isWhitespace).reverse

/-- The canonicalization performed by the constructor:
sequence.upper().strip(). -/
def canonicalize (s : List Char) : List Char :=
  pyStrip (s.map Char.toUpper)

/-- The state stored by a constructed DNASequence object. -/
structure DNASequence where
  seq : List Char
  id : String
  description : String
deriving DecidableEq

/-- DNASequence.__init__: canonicalize, store id (default "unnamed") and
description (default ""), and raise InvalidSequenceError when the
canonicalized data is not valid. -/
def dnaInit (raw : List Char) (seqId : Option String) (descr : Option String) :
    Except PyErr DNASequence :=
  let canon := canonicalize raw
  if isValid canon then
    .ok ⟨canon, seqId.getD "unnamed", descr.getD ""⟩
  else
    .error .invalidSequence

/-- DNASequence.__eq__: content comparison of the stored sequences. -/
def dnaEq (a b : DNASequence) : Bool := a.seq == b.seq

/-- The invariant established by the constructor for every sequence it
returns: non-empty data, every symbol among the five valid bases. -/
def ValidDNA (d : DNASequence) : Prop :=
  d.seq ≠ [] ∧ ∀ c ∈ d.seq, c ∈ VALID_BASES

instance (d : DNASequence) : Decidable (ValidDNA d) := by
  unfold ValidDNA; infer_instance

/-- Does the pattern occur in s at position p?  (p + len(pat) ≤ len(s)
and the slice s[p : p+len(pat)] equals the pattern.) -/
def matchAt (s pat : List Char) (p : Nat) : Bool :=
  decide (p + pat.length ≤ s.length) && ((s.drop p).take pat.length == pat)

/-- Python str.find(pat, start) scan: try start, start+1, ... while the
position is at most len(s); the iteration bound is passed explicitly. -/
def strFindAux (s pat : List Char) : Nat → Nat → Option Nat
  | 0, _ => none
  | fuel+1, start =>
    if start ≤ s.length then
      if matchAt s pat start then some start
      else strFindAux s pat fuel (start + 1)
    else none

/-- Python str.find(pat, start): lowest match position ≥ start, none when
there is no match (or start exceeds len(s)).  The bound len(s)+1-start
covers every candidate position start..len(s). -/
def strFind (s pat : List Char) (start : Nat) : Option Nat :=
  strFindAux s pat (s.length + 1 - start) start

/-- The while-loop of find_all_occurrences: repeatedly find, record the
position, resume at position+1. -/
def findAllAux (s pat : List Char) : Nat → Nat → List Nat
  | 0, _ => []
  | fuel+1, start =>
    match strFind s pat start with
    | none => []
    | some p => p :: findAllAux s pat fuel (p + 1)

/-- DNASequence.find_all_occurrences: upper-case the pattern, scan from 0;
the bound len+1 covers the maximal number of iterations (the recorded
positions are strictly increasing and at most len). -/
def find_all_occurrences (d : DNASequence) (pattern : List Char) : List Nat :=
  findAllAux d.seq (pattern.map Char.toUpper) (d.seq.length + 1) 0

/-- Python str.count: non-overlapping count, resuming past each full match
(an empty pattern matches at every one of the len+1 positions). -/
def strCountAux (s pat : List Char) : Nat → Nat → Nat
  | 0, _ => 0
  | fuel+1, start =>
    match strFind s pat start with
    | none => 0
    | some p => 1 + strCountAux s pat fuel (p + max pat.length 1)

/-- DNASequence.count_pattern_occurrences: self._sequence.count(pattern.upper()). -/
def count_pattern_occurrences (d : DNASequence) (pattern : List Char) : Nat :=
  strCountAux d.seq (pattern.map Char.toUpper) (d.seq.length + 1) 0

/-- find_orfs start codon. -/
def START_CODON : List Char := ['A', 'T', 'G']

/-- find_orfs stop codons. -/
def STOP_CODONS : List (List Char) := [['T', 'A', 'A'], ['T', 'A', 'G'], ['T', 'G', 'A']]

/-- The codon read at offset i: self._sequence[i:i+3]. -/
def codonAt (s : List Char) (i : Nat) : List Char := (s.drop i).take 3

/-- The inner while-loop of find_orfs: from j, step by 3 while j < len-2,
return the offset of the first in-frame stop codon, none when the
sequence ends first; the iteration bound is passed explicitly. -/
def findStopAux (s : List Char) : Nat → Nat → Option Nat
  | 0, _ => none
  | fuel+1, j =>
    if j + 2 < s.length then
      if codonAt s j ∈ STOP_CODONS then some j
      else findStopAux s fuel (j + 3)
    else none

/-- The inner stop-codon search started at offset j (the bound len+1
covers every iteration the Python loop can make from any j). -/
def findStopFrom (s : List Char) (j : Nat) : Option Nat :=
  findStopAux s (s.length + 1) j

/-- Python slice s[a:b] for 0 ≤ a ≤ b ≤ len. -/
def sliceStr (s : List Char) (a b : Nat) : List Char := (s.drop a).take (b - a)

/-- The outer while-loop of find_orfs for one reading frame: at each i with
i < len-2, read the codon; on ATG run the inner stop search from i+3; when
a stop at j is found, emit (i, j+3, s[i:j+3]) if the span is at least
min_length_bp, and in every case resume at j+3; otherwise (no stop, or the
codon was not ATG) advance by 3.  The iteration bound is passed
explicitly; len+1 iterations cover any run of the Python loop since i
strictly increases. -/
def scanFrameAux (s : List Char) (minLen : Nat) : Nat → Nat → List (Nat × Nat × List Char)
  | 0, _ => []
  | fuel+1, i =>
    if i + 2 < s.length then
      if codonAt s i = START_CODON then
        match findStopFrom s (i + 3) with
        | some j =>
          (if minLen ≤ j + 3 - i then [(i, j + 3, sliceStr s i (j + 3))] else [])
            ++ scanFrameAux s minLen fuel (j + 3)
        | none => scanFrameAux s minLen fuel (i + 3)
      else scanFrameAux s minLen fuel (i + 3)
    else []

/-- DNASequence.find_orfs: the three reading frames 0, 1, 2, scanned
independently, results concatenated in frame order. -/
def find_orfs (d : DNASequence) (min_length_bp : Nat) : List (Nat × Nat × List Char) :=
  scanFrameAux d.seq min_length_bp (d.seq.length + 1) 0 ++
    scanFrameAux d.seq min_length_bp (d.seq.length + 1) 1 ++
      scanFrameAux d.seq min_length_bp (d.seq.length + 1) 2

/-- DNASequence.get_base_composition: a mapping from each of the five
valid bases to its count in the sequence (0 for any other key, modelling
dict.get(key, 0)). -/
def get_base_composition (d : DNASequence) : Char → Nat :=
  fun base => if base ∈ VALID_BASES then d.seq.count base else 0

/-- DNASequence.gc_content: (G+C count / length) * 100, with the defensive
0.0 for an empty sequence.  Real arithmetic is modelled by rationals. -/
def gc_content (d : DNASequence) : ℚ :=
  if d.seq.length = 0 then 0
  else (((get_base_composition d 'G' : ℚ) + (get_base_composition d 'C' : ℚ))
          / (d.seq.length : ℚ)) * 100

/-- DNASequence.calculate_melting_temp: Wallace rule for length < 14,
empirical formula for length ≥ 14, 0.0 for an empty sequence. -/
def calculate_melting_temp (d : DNASequence) : ℚ :=
  let gc_count := get_base_composition d 'G' + get_base_composition d 'C'
  let at_count := get_base_composition d 'A' + get_base_composition d 'T'
  if d.seq.length = 0 then 0
  else if d.seq.length < 14 then
    4 * (gc_count : ℚ) + 2 * (at_count : ℚ)
  else
    64.9 + 41 * (gc_content d / 100 - 16.4 / (d.seq.length : ℚ))

/-- The _COMPLEMENT_MAP translation table ATGCN -> TACGN; characters
outside the table are left unchanged (str.translate semantics; N maps
to itself, covered by the final else). -/
def complementChar (c : Char) : Char :=
  if c = 'A' then 'T'
  else if c = 'T' then 'A'
  else if c = 'G' then 'C'
  else if c = 'C' then 'G'
  else c

/-- DNASequence.complement: translate every symbol and construct a new
DNASequence with id "<id>_complement" (the constructor can raise, hence
Except). -/
def complement (d : DNASequence) : Except PyErr DNASequence :=
  dnaInit (d.seq.map complementChar) (some (d.id ++ "_complement")) none

/-- A key passed to DNASequence.__getitem__: an integer index or a plain
slice with optional bounds. -/
inductive PyKey where
  | idx (i : Int)
  | slice (lo hi : Option Int)

/-- Python slice-bound resolution for step 1: missing bound becomes the
default, negative bounds count from the end, everything is clamped to
[0, n]. -/
def resolveSliceBound (n : Nat) (dflt : Nat) : Option Int → Nat
  | none => dflt
  | some v => if v < 0 then (v + n).toNat else min v.toNat n

/-- The string extracted by s[lo:hi] under Python clamping slice semantics. -/
def sliceExtract (s : List Char) (lo hi : Option Int) : List Char :=
  let a := resolveSliceBound s.length 0 lo
  let b := resolveSliceBound s.length s.length hi
  (s.drop a).take (b - a)

/-- The value returned by __getitem__: a single base for an integer key,
a derived DNASequence for a slice key. -/
inductive GetItemResult where
  | base (c : Char)
  | subseq (d : DNASequence)
deriving DecidableEq

/-- DNASequence.__getitem__: integer keys resolve negative indices and
raise IndexError out of range; slice keys extract the subrange and feed
it to _create_slice_sequence, i.e. to the constructor with id
"<id>_slice_<length>", whose InvalidSequenceError propagates. -/
def dnaGetitem (d : DNASequence) (k : PyKey) : Except PyErr GetItemResult :=
  match k with
  | .idx i =>
    let r : Int := if i < 0 then i + d.seq.length else i
    if 0 ≤ r then
      match d.seq.get? r.toNat with
      | some c => .ok (.base c)
      | none => .error .indexError
    else .error .indexError
  | .slice lo hi =>
    let sub := sliceExtract d.seq lo hi
    match dnaInit sub (some (d.id ++ "_slice_" ++ toString sub.length)) none with
    | .ok d2 => .ok (.subseq d2)
    | .error e => .error e

/-- The RESTRICTION_SITES table of find_restriction_sites. -/
def RESTRICTION_SITES : List (String × String) :=
  [("EcoRI", "GAATTC"), ("BamHI", "GGATCC"), ("HindIII", "AAGCTT"),
   ("PstI", "CTGCAG"), ("SmaI", "CCCGGG"), ("XbaI", "TCTAGA")]

/-- DNASequence.find_restriction_sites: unknown enzyme yields [], a known
enzyme delegates to find_all_occurrences on its recognition sequence. -/
def find_restriction_sites (d : DNASequence) (enzyme : String) : List Nat :=
  match RESTRICTION_SITES.lookup enzyme with
  | none => []
  | some r => find_all_occurrences d r.toList

/-! Helper lemmas about characters and canonicalization. -/

theorem char_toNat_ofNat_of_valid (n : Nat) (h : n.isValidChar) :
    (Char.ofNat n).toNat = n := by
  simp [Char.ofNat, dif_pos h, Char.ofNatAux, Char.toNat, UInt32.toNat]

theorem char_toUpper_idem (c : Char) : c.toUpper.toUpper = c.toUpper := by
  have hdef : ∀ d : Char,
      d.toUpper = if d.toNat ≥ 97 ∧ d.toNat ≤ 122 then Char.ofNat (d.toNat - 32) else d :=
    fun _ => rfl
  by_cases h : c.toNat ≥ 97 ∧ c.toNat ≤ 122
  · rw [hdef c, if_pos h]
    have hv : (c.toNat - 32).isValidChar := Or.inl (by omega)
    have ht : (Char.ofNat (c.toNat - 32)).toNat = c.toNat - 32 :=
      char_toNat_ofNat_of_valid _ hv
    rw [hdef, ht, if_neg (by omega)]
  · rw [hdef c, if_neg h, hdef c, if_neg h]

theorem toUpper_base {c : Char} (h : c ∈ VALID_BASES) : c.toUpper = c := by
  simp only [VALID_BASES, List.mem_cons, List.not_mem_nil, or_false] at h
  rcases h with rfl | rfl | rfl | rfl | rfl <;> rfl

theorem base_not_whitespace {c : Char} (h : c ∈ VALID_BASES) : c.isWhitespace = false := by
  simp only [VALID_BASES, List.mem_cons, List.not_mem_nil, or_false] at h
  rcases h with rfl | rfl | rfl | rfl | rfl <;> rfl

theorem complementChar_base {c : Char} (h : c ∈ VALID_BASES) :
    complementChar c ∈ VALID_BASES := by
  simp only [VALID_BASES, List.mem_cons, List.not_mem_nil, or_false] at h ⊢
  rcases h with rfl | rfl | rfl | rfl | rfl <;> simp [complementChar]

theorem complementChar_invol {c : Char} (h : c ∈ VALID_BASES) :
    complementChar (complementChar c) = c := by
  simp only [VALID_BASES, List.mem_cons, List.not_mem_nil, or_false] at h
  rcases h with rfl | rfl | rfl | rfl | rfl <;> rfl

theorem dropWhile_eq_self_of_head (p : Char → Bool) (l : List Char)
    (h : ∀ c ∈ l, p c = false) : l.dropWhile p = l := by
  cases l with
  | nil => rfl
  | cons a t =>
    rw [List.dropWhile_cons, h a (List.mem_cons_self a t)]
    simp

theorem pyStrip_eq_self {l : List Char} (h : ∀ c ∈ l, c ∈ VALID_BASES) :
    pyStrip l = l := by
  unfold pyStrip
  rw [dropWhile_eq_self_of_head _ _ (fun c hc => base_not_whitespace (h c hc)),
    dropWhile_eq_self_of_head _ _
      (fun c hc => base_not_whitespace (h c (List.mem_reverse.mp hc))),
    List.reverse_reverse]

theorem map_toUpper_eq_self {l : List Char} (h : ∀ c ∈ l, c ∈ VALID_BASES) :
    l.map Char.toUpper = l :=
  (List.map_congr_left (fun c hc => toUpper_base (h c hc))).trans (List.map_id l)

theorem canonicalize_eq_self {l : List Char} (h : ∀ c ∈ l, c ∈ VALID_BASES) :
    canonicalize l = l := by
  unfold canonicalize
  rw [map_toUpper_eq_self h]
  exact pyStrip_eq_self h

theorem mem_pyStrip {c : Char} {l : List Char} (h : c ∈ pyStrip l) : c ∈ l := by
  unfold pyStrip at h
  rw [List.mem_reverse] at h
  have h1 := (List.dropWhile_sublist (l := (l.dropWhile Char.isWhitespace).reverse)
    Char.isWhitespace).subset h
  rw [List.mem_reverse] at h1
  exact (List.dropWhile_sublist (l := l) Char.isWhitespace).subset h1

theorem canonicalize_toUpper_fixed {raw : List Char} {c : Char}
    (h : c ∈ canonicalize raw) : c.toUpper = c := by
  have h1 : c ∈ raw.map Char.toUpper := mem_pyStrip h
  obtain ⟨c0, _, rfl⟩ := List.mem_map.mp h1
  exact char_toUpper_idem c0

theorem isValid_eq_true_iff (l : List Char) (hup : ∀ c ∈ l, c.toUpper = c) :
    isValid l = true ↔ l ≠ [] ∧ ∀ c ∈ l, c ∈ VALID_BASES := by
  unfold isValid
  rw [Bool.and_eq_true, List.all_eq_true, Bool.not_eq_true', ← Bool.not_eq_true,
    List.isEmpty_iff]
  constructor
  · rintro ⟨h1, h2⟩
    refine ⟨h1, fun c hc => ?_⟩
    have := h2 c hc
    rw [List.contains_iff_exists_mem_beq] at this
    obtain ⟨b, hb, hbeq⟩ := this
    rw [hup c hc] at hbeq
    rwa [show c = b from by simpa using hbeq]
  · rintro ⟨h1, h2⟩
    refine ⟨h1, fun c hc => ?_⟩
    rw [List.contains_iff_exists_mem_beq]
    exact ⟨c, h2 c hc, by simp [hup c hc]⟩

theorem dnaInit_error_iff (raw : List Char) (sid ds : Option String) :
    dnaInit raw sid ds = .error .invalidSequence ↔
      isValid (canonicalize raw) = false := by
  unfold dnaInit
  cases h : isValid (canonicalize raw) <;> simp [h]

/-- The constructor invariant: every DNASequence the constructor returns
is non-empty and made of valid bases only. -/
theorem dnaInit_ok_valid {raw : List Char} {sid ds : Option String} {d : DNASequence}
    (h : dnaInit raw sid ds = .ok d) : ValidDNA d := by
  simp only [dnaInit] at h
  cases hv : isValid (canonicalize raw) with
  | false => simp [hv] at h
  | true =>
    simp only [hv, if_true] at h
    have hval := (isValid_eq_true_iff (canonicalize raw)
      (fun c hc => canonicalize_toUpper_fixed hc)).mp hv
    injection h with h3
    rw [← h3]
    exact hval

/-- C4: construction of a Sequence raises InvalidSequence if and only if
the input, after upper-casing and trimming leading/trailing whitespace, is
empty or contains a character outside {A, T, G, C, N}; on failure the
Except carries no DNASequence, so no entity reaches the caller. -/
theorem C4_init_error_iff (raw : List Char) (sid ds : Option String) :
    dnaInit raw sid ds = .error .invalidSequence ↔
      canonicalize raw = [] ∨ ∃ c ∈ canonicalize raw, c ∉ VALID_BASES := by
  rw [dnaInit_error_iff]
  have hup : ∀ c ∈ canonicalize raw, c.toUpper = c :=
    fun c hc => canonicalize_toUpper_fixed hc
  have hiff := isValid_eq_true_iff (canonicalize raw) hup
  constructor
  · intro h
    by_contra hco
    push_neg at hco
    obtain ⟨h1, h2⟩ := hco
    have htrue : isValid (canonicalize raw) = true := hiff.mpr ⟨h1, h2⟩
    simp [htrue] at h
  · intro h
    cases hv : isValid (canonicalize raw)
    · rfl
    · exfalso
      obtain ⟨h1, h2⟩ := hiff.mp hv
      rcases h with h | ⟨c, hc, hnc⟩
      · exact h1 h
      · exact hnc (h2 c hc)

/-- C4 witness: a concrete invalid-symbol input and a concrete
whitespace-only input both make the constructor raise. -/
theorem C4_witness :
    dnaInit " atgu ".toList none none = .error .invalidSequence ∧
      dnaInit "  ".toList none none = .error .invalidSequence :=
  ⟨(C4_init_error_iff " atgu ".toList none none).mpr (Or.inr ⟨'U', by decide, by decide⟩),
   (C4_init_error_iff "  ".toList none none).mpr (Or.inl (by decide))⟩

/-- C7: for every valid DNASequence, complement(complement(s)) succeeds
and is equal to s under __eq__ (content comparison; id and description
ignored). -/
theorem C7_complement_involution (d : DNASequence) (h : ValidDNA d) :
    ∃ d1 d2, complement d = .ok d1 ∧ complement d1 = .ok d2 ∧ dnaEq d2 d = true := by
  obtain ⟨hne, hmem⟩ := h
  have hmem1 : ∀ c ∈ d.seq.map complementChar, c ∈ VALID_BASES := by
    intro c hc
    obtain ⟨c0, hc0, rfl⟩ := List.mem_map.mp hc
    exact complementChar_base (hmem c0 hc0)
  have step : ∀ x : DNASequence, (∀ c ∈ x.seq, c ∈ VALID_BASES) → x.seq ≠ [] →
      complement x = .ok ⟨x.seq.map complementChar, x.id ++ "_complement", ""⟩ := by
    intro x hx hxne
    have hmx : ∀ c ∈ x.seq.map complementChar, c ∈ VALID_BASES := by
      intro c hc
      obtain ⟨c0, hc0, rfl⟩ := List.mem_map.mp hc
      exact complementChar_base (hx c0 hc0)
    have hcan : canonicalize (x.seq.map complementChar) = x.seq.map complementChar :=
      canonicalize_eq_self hmx
    have hval : isValid (x.seq.map complementChar) = true :=
      (isValid_eq_true_iff _ (fun c hc => toUpper_base (hmx c hc))).mpr
        ⟨by simp [hxne], hmx⟩
    simp [complement, dnaInit, hcan, hval]
  refine ⟨_, _, step d hmem hne, step _ hmem1 (by simp [hne]), ?_⟩
  simp only [dnaEq, List.map_map]
  have hdouble : d.seq.map (complementChar ∘ complementChar) = d.seq :=
    (List.map_congr_left (fun a ha => complementChar_invol (hmem a ha))).trans
      (List.map_id _)
  rw [hdouble]
  simp

/-- C7 witness: the involution at the concrete sequence ATGCN. -/
theorem C7_witness :
    ∃ d1 d2,
      complement ⟨['A', 'T', 'G', 'C', 'N'], "unnamed", ""⟩ = .ok d1 ∧
        complement d1 = .ok d2 ∧
          dnaEq d2 ⟨['A', 'T', 'G', 'C', 'N'], "unnamed", ""⟩ = true :=
  C7_complement_involution ⟨['A', 'T', 'G', 'C', 'N'], "unnamed", ""⟩ (by decide)

/-! Lemmas about the pattern-search loops. -/

theorem strFindAux_none_of_long {s pat : List Char} (hlen : s.length < pat.length) :
    ∀ fuel start, strFindAux s pat fuel start = none := by
  intro fuel
  induction fuel with
  | zero => intro start; rfl
  | succ n ih =>
    intro start
    have hm : matchAt s pat start = false := by
      have hns : ¬ (start + pat.length ≤ s.length) := by omega
      simp [matchAt, hns]
    simp only [strFindAux, hm]
    split
    · exact ih (start + 1)
    · rfl

theorem strFind_none_of_long {s pat : List Char} (hlen : s.length < pat.length)
    (start : Nat) : strFind s pat start = none :=
  strFindAux_none_of_long hlen _ _

theorem strFind_nil_pat (s : List Char) (start : Nat) (h : start ≤ s.length) :
    strFind s [] start = some start := by
  unfold strFind
  have hfuel : s.length + 1 - start = (s.length - start) + 1 := by omega
  have hm : matchAt s [] start = true := by simp [matchAt, h]
  rw [hfuel]
  simp only [strFindAux, hm, if_pos h, if_true]

theorem findAllAux_nil_pat (s : List Char) :
    ∀ fuel start, fuel = s.length + 1 - start →
      findAllAux s [] fuel start = List.range' start fuel := by
  intro fuel
  induction fuel with
  | zero => intro start h; rfl
  | succ n ih =>
    intro start h
    have hs : start ≤ s.length := by omega
    simp only [findAllAux, strFind_nil_pat s start hs]
    rw [List.range'_succ]
    congr 1
    exact ih (start + 1) (by omega)

theorem strCountAux_nil_pat (s : List Char) :
    ∀ fuel start, fuel = s.length + 1 - start → strCountAux s [] fuel start = fuel := by
  intro fuel
  induction fuel with
  | zero => intro start h; rfl
  | succ n ih =>
    intro start h
    have hs : start ≤ s.length := by omega
    simp only [strCountAux, strFind_nil_pat s start hs]
    have hstep : (start + ([] : List Char).length ⊔ 1 : Nat) = start + 1 := by simp
    rw [hstep, ih (start + 1) (by omega)]
    omega

/-- C1 counterexample: on the valid sequence ATGC the empty pattern does
not return an empty list; it returns every position 0..4. -/
theorem C1_counterexample :
    dnaInit "ATGC".toList none none = .ok ⟨"ATGC".toList, "unnamed", ""⟩ ∧
      find_all_occurrences ⟨"ATGC".toList, "unnamed", ""⟩ [] = [0, 1, 2, 3, 4] ∧
        ([0, 1, 2, 3, 4] : List Nat) ≠ [] := by decide

/-- C1 amended: find_all_occurrences never raises (it is total); a pattern
longer than the sequence yields [], and the empty pattern yields the list
of all positions 0..length (length+1 entries), matching Python
str.find semantics. -/
theorem C1_amended_find_all (d : DNASequence) (pat : List Char) :
    (d.seq.length < pat.length → find_all_occurrences d pat = []) ∧
      (pat = [] → find_all_occurrences d pat = List.range (d.seq.length + 1)) := by
  constructor
  · intro hl
    have hl2 : d.seq.length < (pat.map Char.toUpper).length := by simpa using hl
    unfold find_all_occurrences
    simp only [findAllAux, strFind_none_of_long hl2 0]
  · intro hp
    subst hp
    unfold find_all_occurrences
    simp only [List.map_nil]
    rw [findAllAux_nil_pat d.seq (d.seq.length + 1) 0 (by omega), List.range_eq_range']

/-- C1 witness: the amended statement evaluated on ATGC with a too-long
pattern and with the empty pattern. -/
theorem C1_witness :
    find_all_occurrences ⟨"ATGC".toList, "unnamed", ""⟩ "GAATTC".toList = [] ∧
      find_all_occurrences ⟨"ATGC".toList, "unnamed", ""⟩ [] = List.range 5 :=
  ⟨(C1_amended_find_all ⟨"ATGC".toList, "unnamed", ""⟩ "GAATTC".toList).1 (by decide),
   (C1_amended_find_all ⟨"ATGC".toList, "unnamed", ""⟩ []).2 rfl⟩

/-- C2 counterexample: on the sequence constructed from
ATGAATTCGGCCATGAATTC the EcoRI recognition sequence GAATTC occurs at
offsets 2 and 14, so the result is not [3, 14] as claimed. -/
theorem C2_counterexample :
    dnaInit "ATGAATTCGGCCATGAATTC".toList none none
        = .ok ⟨"ATGAATTCGGCCATGAATTC".toList, "unnamed", ""⟩ ∧
      find_restriction_sites ⟨"ATGAATTCGGCCATGAATTC".toList, "unnamed", ""⟩ "EcoRI"
          = [2, 14] ∧
        ([2, 14] : List Nat) ≠ [3, 14] := by decide

/-- C2 amended: find_restriction_sites("EcoRI") on the sequence
constructed from ATGAATTCGGCCATGAATTC returns exactly [2, 14], the
starting offsets of GAATTC. -/
theorem C2_amended_sites :
    dnaInit "ATGAATTCGGCCATGAATTC".toList none none
        = .ok ⟨"ATGAATTCGGCCATGAATTC".toList, "unnamed", ""⟩ ∧
      find_restriction_sites ⟨"ATGAATTCGGCCATGAATTC".toList, "unnamed", ""⟩ "EcoRI"
        = [2, 14] := by decide

/-- C5: on the sequence AAAA, find_all_occurrences("AAA") returns [0, 1]
(overlapping matches, resume at match start + 1) while
count_pattern_occurrences("AA") returns 2 (non-overlapping). -/
theorem C5_overlap_vs_count :
    dnaInit "AAAA".toList none none = .ok ⟨"AAAA".toList, "unnamed", ""⟩ ∧
      find_all_occurrences ⟨"AAAA".toList, "unnamed", ""⟩ "AAA".toList = [0, 1] ∧
        count_pattern_occurrences ⟨"AAAA".toList, "unnamed", ""⟩ "AA".toList = 2 := by
  decide

/-- C10: for every valid DNASequence, count_pattern_occurrences with the
empty pattern returns length + 1 (Python str.count counts the empty
pattern at every position), not 0 and no error. -/
theorem C10_count_empty (d : DNASequence) (hv : ValidDNA d) :
    count_pattern_occurrences d [] = d.seq.length + 1 := by
  unfold count_pattern_occurrences
  simp only [List.map_nil]
  exact strCountAux_nil_pat d.seq (d.seq.length + 1) 0 (by omega)

/-- C10 witness: the empty-pattern count on the concrete sequence ATGC. -/
theorem C10_witness :
    count_pattern_occurrences ⟨"ATGC".toList, "unnamed", ""⟩ [] = 5 :=
  C10_count_empty ⟨"ATGC".toList, "unnamed", ""⟩ (by decide)

/-- Every dnaInit failure is InvalidSequenceError (the constructor has no
other failure mode). -/
theorem dnaInit_error_eq {raw : List Char} {sid ds : Option String} {e : PyErr}
    (h : dnaInit raw sid ds = .error e) : e = .invalidSequence := by
  simp only [dnaInit] at h
  cases hv : isValid (canonicalize raw) with
  | true => rw [hv] at h; simp at h
  | false =>
    rw [hv] at h
    simp only [Bool.false_eq_true, if_false, Except.error.injEq] at h
    exact h.symm

/-- C6: for every valid DNASequence, the melting-temperature estimate is
4*(G+C) + 2*(A+T) when length < 14, and
64.9 + 41*(gc_content/100 - 16.4/length) when length >= 14. -/
theorem C6_melting_temp (d : DNASequence) (h : ValidDNA d) :
    (d.seq.length < 14 →
      calculate_melting_temp d =
        4 * ((d.seq.count 'G' : ℚ) + (d.seq.count 'C' : ℚ)) +
          2 * ((d.seq.count 'A' : ℚ) + (d.seq.count 'T' : ℚ))) ∧
      (14 ≤ d.seq.length →
        calculate_melting_temp d =
          64.9 + 41 * (gc_content d / 100 - 16.4 / (d.seq.length : ℚ))) := by
  have hne : ¬ d.seq.length = 0 := by
    intro h0
    exact h.1 (List.length_eq_zero.mp h0)
  have hG : get_base_composition d 'G' = d.seq.count 'G' := by
    simp [get_base_composition, VALID_BASES]
  have hC : get_base_composition d 'C' = d.seq.count 'C' := by
    simp [get_base_composition, VALID_BASES]
  have hA : get_base_composition d 'A' = d.seq.count 'A' := by
    simp [get_base_composition, VALID_BASES]
  have hT : get_base_composition d 'T' = d.seq.count 'T' := by
    simp [get_base_composition, VALID_BASES]
  constructor
  · intro hlt
    simp only [calculate_melting_temp, hG, hC, hA, hT, if_neg hne, if_pos hlt]
    push_cast
    ring
  · intro hge
    have hnlt : ¬ d.seq.length < 14 := by omega
    simp only [calculate_melting_temp, if_neg hne, if_neg hnlt]

/-- C6 witness: the Wallace branch on ATGC (length 4) and the empirical
branch on a length-14 sequence. -/
theorem C6_witness :
    calculate_melting_temp ⟨"ATGC".toList, "unnamed", ""⟩ =
        4 * ((("ATGC".toList).count 'G' : ℚ) + (("ATGC".toList).count 'C' : ℚ)) +
          2 * ((("ATGC".toList).count 'A' : ℚ) + (("ATGC".toList).count 'T' : ℚ)) ∧
      calculate_melting_temp ⟨"ATGCATGCATGCAT".toList, "unnamed", ""⟩ =
        64.9 + 41 * (gc_content ⟨"ATGCATGCATGCAT".toList, "unnamed", ""⟩ / 100
          - 16.4 / (("ATGCATGCATGCAT".toList).length : ℚ)) :=
  ⟨(C6_melting_temp ⟨"ATGC".toList, "unnamed", ""⟩ (by decide)).1 (by decide),
   (C6_melting_temp ⟨"ATGCATGCATGCAT".toList, "unnamed", ""⟩ (by decide)).2 (by decide)⟩

/-- C8: every slice whose extracted subrange is empty (for example s[k:k]
or a clamped out-of-range slice) makes __getitem__ raise InvalidSequence
from the derived sequence's constructor, and an out-of-bounds error can
arise only from single-position access with an index outside [0, length)
(slices never raise it). -/
theorem C8_getitem (d : DNASequence) :
    (∀ lo hi, sliceExtract d.seq lo hi = [] →
      dnaGetitem d (.slice lo hi) = .error .invalidSequence) ∧
      (∀ k, dnaGetitem d k = .error .indexError →
        ∃ i, k = .idx i ∧ (i < 0 ∨ (d.seq.length : Int) ≤ i)) := by
  constructor
  · intro lo hi hempty
    simp only [dnaGetitem, hempty]
    rfl
  · intro k hk
    cases k with
    | idx i =>
      refine ⟨i, rfl, ?_⟩
      by_cases hi : i < 0
      · exact Or.inl hi
      · right
        have h0 : (0 : Int) ≤ i := by omega
        simp only [dnaGetitem, if_neg hi, if_pos h0] at hk
        cases hget : d.seq.get? i.toNat with
        | some c => rw [hget] at hk; simp at hk
        | none =>
          have hlen : d.seq.length ≤ i.toNat := List.get?_eq_none.mp hget
          omega
    | slice lo hi =>
      exfalso
      simp only [dnaGetitem] at hk
      cases hinit : dnaInit (sliceExtract d.seq lo hi)
          (some (d.id ++ "_slice_" ++ toString (sliceExtract d.seq lo hi).length)) none with
      | ok d2 => rw [hinit] at hk; simp at hk
      | error e =>
        rw [hinit] at hk
        have he : e = .invalidSequence := dnaInit_error_eq hinit
        rw [he] at hk
        simp at hk

/-- C8 witness: the empty slice [2:2] and the fully clamped slice [10:20]
on ATGC both raise InvalidSequence. -/
theorem C8_witness :
    dnaGetitem ⟨"ATGC".toList, "unnamed", ""⟩ (.slice (some 2) (some 2))
        = .error .invalidSequence ∧
      dnaGetitem ⟨"ATGC".toList, "unnamed", ""⟩ (.slice (some 10) (some 20))
        = .error .invalidSequence :=
  ⟨(C8_getitem ⟨"ATGC".toList, "unnamed", ""⟩).1 (some 2) (some 2) rfl,
   (C8_getitem ⟨"ATGC".toList, "unnamed", ""⟩).1 (some 10) (some 20) rfl⟩

/-! Lemmas about the ORF scan. -/

theorem findStopAux_spec (s : List Char) :
    ∀ fuel j k, findStopAux s fuel j = some k →
      j ≤ k ∧ (k - j) % 3 = 0 ∧ k + 2 < s.length ∧ codonAt s k ∈ STOP_CODONS := by
  intro fuel
  induction fuel with
  | zero => intro j k h; simp [findStopAux] at h
  | succ n ih =>
    intro j k h
    simp only [findStopAux] at h
    by_cases hj : j + 2 < s.length
    · rw [if_pos hj] at h
      by_cases hc : codonAt s j ∈ STOP_CODONS
      · rw [if_pos hc] at h
        injection h with h
        subst h
        exact ⟨Nat.le_refl _, by simp, hj, hc⟩
      · rw [if_neg hc] at h
        obtain ⟨h1, h2, h3, h4⟩ := ih (j + 3) k h
        exact ⟨by omega, by omega, h3, h4⟩
    · rw [if_neg hj] at h
      simp at h

theorem findStopFrom_spec {s : List Char} {j k : Nat}
    (h : findStopFrom s j = some k) :
    j ≤ k ∧ (k - j) % 3 = 0 ∧ k + 2 < s.length ∧ codonAt s k ∈ STOP_CODONS :=
  findStopAux_spec s _ j k h

theorem drop_take_comm {α : Type} :
    ∀ (m n : Nat) (l : List α), (l.take n).drop m = (l.drop m).take (n - m) := by
  intro m
  induction m with
  | zero => intro n l; simp
  | succ m ih =>
    intro n l
    cases l with
    | nil => simp
    | cons a t =>
      cases n with
      | zero => simp
      | succ n =>
        simp only [List.take_succ_cons, List.drop_succ_cons, Nat.succ_sub_succ]
        exact ih n t

theorem take_take_min {α : Type} :
    ∀ (m n : Nat) (l : List α), (l.take n).take m = l.take (min m n) := by
  intro m
  induction m with
  | zero => intro n l; simp
  | succ m ih =>
    intro n l
    cases l with
    | nil => simp
    | cons a t =>
      cases n with
      | zero => simp
      | succ n =>
        simp only [List.take_succ_cons, Nat.succ_min_succ]
        congr 1
        exact ih n t

/-- Everything a single frame scan emits satisfies the ORF shape
invariants. -/
theorem scanFrameAux_mem (s : List Char) (minLen : Nat) :
    ∀ fuel i a b txt, (a, b, txt) ∈ scanFrameAux s minLen fuel i →
      txt = sliceStr s a b ∧ txt.take 3 = START_CODON ∧
        txt.drop (txt.length - 3) ∈ STOP_CODONS ∧ a + 6 ≤ b ∧ (b - a) % 3 = 0 ∧
          b ≤ s.length := by
  intro fuel
  induction fuel with
  | zero => intro i a b txt h; simp [scanFrameAux] at h
  | succ n ih =>
    intro i a b txt h
    simp only [scanFrameAux] at h
    by_cases hi : i + 2 < s.length
    case neg => rw [if_neg hi] at h; simp at h
    rw [if_pos hi] at h
    by_cases hc : codonAt s i = START_CODON
    case neg => rw [if_neg hc] at h; exact ih _ _ _ _ h
    rw [if_pos hc] at h
    cases hfs : findStopFrom s (i + 3) with
    | none => rw [hfs] at h; exact ih _ _ _ _ h
    | some j =>
      rw [hfs] at h
      obtain ⟨hj1, hj2, hj3, hj4⟩ := findStopFrom_spec hfs
      rw [List.mem_append] at h
      rcases h with h | h
      · by_cases hml : minLen ≤ j + 3 - i
        case neg => rw [if_neg hml] at h; simp at h
        rw [if_pos hml] at h
        rw [List.mem_singleton, Prod.ext_iff, Prod.ext_iff] at h
        obtain ⟨ha, hb, htxt⟩ := h
        simp only at ha hb htxt
        rw [ha, hb, htxt]
        have hlen : (sliceStr s i (j + 3)).length = j + 3 - i := by
          simp only [sliceStr, List.length_take, List.length_drop]
          omega
        refine ⟨rfl, ?_, ?_, by omega, by omega, by omega⟩
        · have h3 : min 3 (j + 3 - i) = 3 := by omega
          simp only [sliceStr, take_take_min, h3]
          exact hc
        · rw [hlen]
          have harith : j + 3 - i - 3 = j - i := by omega
          simp only [sliceStr, harith, drop_take_comm, List.drop_drop]
          have h1 : i + (j - i) = j := by omega
          have h2 : j + 3 - i - (j - i) = 3 := by omega
          rw [h1, h2]
          exact hj4
      · exact ih _ _ _ _ h

/-- C9: every tuple (start, end, text) emitted by find_orfs satisfies:
text is the subrange [start, end) of the data, text begins with the codon
ATG, text ends with a stop codon, and end - start is a positive multiple
of 3 that is at least 6. -/
theorem C9_orf_invariants (d : DNASequence) (minLen a b : Nat) (txt : List Char)
    (h : (a, b, txt) ∈ find_orfs d minLen) :
    txt = sliceStr d.seq a b ∧ txt.take 3 = START_CODON ∧
      txt.drop (txt.length - 3) ∈ STOP_CODONS ∧ a + 6 ≤ b ∧ (b - a) % 3 = 0 := by
  unfold find_orfs at h
  rw [List.mem_append] at h
  rcases h with h | h
  · rw [List.mem_append] at h
    rcases h with h | h <;>
      · obtain ⟨h1, h2, h3, h4, h5, _⟩ := scanFrameAux_mem d.seq minLen _ _ _ _ _ h
        exact ⟨h1, h2, h3, h4, h5⟩
  · obtain ⟨h1, h2, h3, h4, h5, _⟩ := scanFrameAux_mem d.seq minLen _ _ _ _ _ h
    exact ⟨h1, h2, h3, h4, h5⟩

/-- C9 witness: the single ORF of ATGAAATAA at minimum length 6. -/
theorem C9_witness :
    (0, 9, "ATGAAATAA".toList) ∈ find_orfs ⟨"ATGAAATAA".toList, "unnamed", ""⟩ 6 ∧
      ("ATGAAATAA".toList = sliceStr "ATGAAATAA".toList 0 9 ∧
        ("ATGAAATAA".toList).take 3 = START_CODON ∧
          ("ATGAAATAA".toList).drop (("ATGAAATAA".toList).length - 3) ∈ STOP_CODONS ∧
            0 + 6 ≤ 9 ∧ (9 - 0) % 3 = 0) :=
  ⟨by decide,
   C9_orf_invariants ⟨"ATGAAATAA".toList, "unnamed", ""⟩ 6 0 9 "ATGAAATAA".toList
     (by decide)⟩

/-- C3: the control flow of the ORF scan: when the codon at i is ATG and a
stop codon is found at j, one iteration emits the candidate exactly when
its span reaches min_length_bp and in either case resumes at j+3; when no
stop codon is found before the sequence ends, one iteration emits nothing
and resumes at i+3 (one codon step past the ATG), with no error. -/
theorem C3_orf_scan_step (s : List Char) (minLen i fuel : Nat)
    (hi : i + 2 < s.length) (hstart : codonAt s i = START_CODON) :
    (∀ j, findStopFrom s (i + 3) = some j →
        scanFrameAux s minLen (fuel + 1) i =
          (if minLen ≤ j + 3 - i then [(i, j + 3, sliceStr s i (j + 3))] else [])
            ++ scanFrameAux s minLen fuel (j + 3)) ∧
      (findStopFrom s (i + 3) = none →
        scanFrameAux s minLen (fuel + 1) i = scanFrameAux s minLen fuel (i + 3)) := by
  constructor
  · intro j hj
    simp only [scanFrameAux, if_pos hi, hstart, if_pos rfl, hj, if_true]
  · intro hnone
    simp only [scanFrameAux, if_pos hi, hstart, if_pos rfl, hnone, if_true]

/-- C3 witness: on ATGAAATAA (stop found at 6, span 9 below the minimum
100) the scan still resumes at 9; on ATGAAA (no stop) the scan resumes one
codon past the ATG. -/
theorem C3_witness :
    scanFrameAux "ATGAAATAA".toList 100 10 0 =
        (if 100 ≤ 6 + 3 - 0 then [(0, 6 + 3, sliceStr "ATGAAATAA".toList 0 (6 + 3))]
         else []) ++ scanFrameAux "ATGAAATAA".toList 100 9 (6 + 3) ∧
      scanFrameAux "ATGAAA".toList 100 6 0 = scanFrameAux "ATGAAA".toList 100 5 (0 + 3) :=
  ⟨(C3_orf_scan_step "ATGAAATAA".toList 100 0 9 (by decide) (by decide)).1 6 (by decide),
   (C3_orf_scan_step "ATGAAA".toList 100 0 5 (by decide) (by decide)).2 (by decide)⟩

end DNA

-- sanity checks for the search embedding (Python semantics)
example : DNA.strFind "AAAA".toList "AAA".toList 0 = some 0 := by decide
example : DNA.strFind "ATGC".toList "".toList 4 = some 4 := by decide
example : DNA.strFind "ATGC".toList "".toList 5 = none := by decide
example :
    DNA.find_all_occurrences ⟨"AAAA".toList, "unnamed", ""⟩ "AAA".toList = [0, 1] := by
  decide
example :
    DNA.count_pattern_occurrences ⟨"AAAA".toList, "unnamed", ""⟩ "AA".toList = 2 := by
  decide
example :
    DNA.find_all_occurrences ⟨"ATGATGATG".toList, "unnamed", ""⟩ "ATG".toList
      = [0, 3, 6] := by decide
example :
    DNA.dnaInit "ATGCk".toList none none = .error .invalidSequence := by decide
example :
    DNA.dnaInit " atgc ".toList none none = .ok ⟨"ATGC".toList, "unnamed", ""⟩ := by
  decide
example :
    DNA.find_restriction_sites ⟨"ATGAATTCGGCCATGAATTC".toList, "unnamed", ""⟩ "EcoRI"
      = [2, 14] := by decide
example :
    DNA.find_orfs ⟨"ATGAAATAA".toList, "unnamed", ""⟩ 6
      = [(0, 9, "ATGAAATAA".toList)] := by decide
example :
    DNA.find_orfs ⟨"ATGAAATAA".toList, "unnamed", ""⟩ 100 = [] := by decide
example :
    DNA.calculate_melting_temp ⟨"ATGC".toList, "unnamed", ""⟩ = 12 := by
  have hg : DNA.get_base_composition ⟨['A', 'T', 'G', 'C'], "unnamed", ""⟩ 'G' = 1 := by decide
  have hc : DNA.get_base_composition ⟨['A', 'T', 'G', 'C'], "unnamed", ""⟩ 'C' = 1 := by decide
  have ha : DNA.get_base_composition ⟨['A', 'T', 'G', 'C'], "unnamed", ""⟩ 'A' = 1 := by decide
  have ht : DNA.get_base_composition ⟨['A', 'T', 'G', 'C'], "unnamed", ""⟩ 'T' = 1 := by decide
  norm_num [DNA.calculate_melting_temp, String.toList, hg, hc, ha, ht]
example :
    DNA.complement ⟨"ATGC".toList, "unnamed", ""⟩
      = .ok ⟨"TACG".toList, "unnamed_complement", ""⟩ := by decide
example :
    DNA.dnaGetitem ⟨"ATGC".toList, "u", ""⟩ (.slice (some 2) (some 2))
      = .error .invalidSequence := by decide
example :
    DNA.dnaGetitem ⟨"ATGC".toList, "u", ""⟩ (.idx (-1)) = .ok (.base 'C') := by decide
example :
    DNA.dnaGetitem ⟨"ATGC".toList, "u", ""⟩ (.idx 4) = .error .indexError := by decide
example :
    DNA.dnaGetitem ⟨"ATGC".toList, "u", ""⟩ (.slice (some 0) (some 2))
      = .ok (.subseq ⟨"AT".toList, "u_slice_2", ""⟩) := by decide
